import Mathlib

/-!
Shallow embedding of the `lalr1_py` LALR(1) parsing runtime
(`src/modules/lalr1_py/parser.py`, `tables.py`) and of the `apply_rule`
routine emitted by the recursive-ascent generator
(`src/modules/lalr1_py/parsergen.py`, `write_parser_class`).

Python lists are `List`, Python `None`/integer semantic values are
`Option Int`, Python dicts keyed by rule id are association lists kept in
insertion order (Python 3.7+ dict semantics).  Python slicing and indexing
(including negative indices) are reproduced by `pySlice` and `pyGet`.
Exceptions are modelled by `Option`/explicit error results.
-/

namespace Lalr1

/-- Semantic value: Python `None` or an integer. -/
abbrev Val := Option Int

/-- Python slice `xs[start:stop]` for integer bounds, including the
negative-index wrap-around and clamping Python performs. -/
def pySlice {α : Type} (xs : List α) (start stop : Int) : List α :=
  let n : Int := (xs.length : Int)
  let s : Int := if start < 0 then max 0 (n + start) else min start n
  let e : Int := if stop < 0 then max 0 (n + stop) else min stop n
  (xs.drop s.toNat).take (e - s).toNat

/-- Python indexing `xs[i]` with negative-index wrap-around; `none` models
an `IndexError`. -/
def pyGet {α : Type} (xs : List α) (i : Int) : Option α :=
  let n : Int := (xs.length : Int)
  let j : Int := if i < 0 then n + i else i
  if j < 0 then none else xs.get? j.toNat

/-- Two-dimensional table access `m[i][j]`. -/
def pyGet2 (m : List (List Int)) (i j : Int) : Option Int :=
  match pyGet m i with
  | none => none
  | some row => pyGet row j

/-- Replace the last element of a list (`xs[len(xs)-1] = a`). -/
def setLast {α : Type} (xs : List α) (a : α) : List α :=
  xs.dropLast ++ [a]

/-- A symbol-stack entry: `{ "is_term": …, "id": …, "val": … }`. -/
structure Sym where
  is_term : Bool
  id : Int
  val : Val
deriving DecidableEq

/-- An active (partially matched) rule:
`{ "seen_tokens": …, "retval": …, "handle": … }`. -/
structure ActiveRule where
  seen_tokens : Int
  retval : Val
  handle : Int
deriving DecidableEq

/-- The active-rule map `self.active_rules`: rule id to stack of active
rules, top of stack at the end of the list (Python `append`). -/
abbrev ARMap := List (Int × List ActiveRule)

/-- One recorded semantic-action call `semantics[rule_id](args, completed,
prev_retval)`. -/
structure CallEv where
  rule_id : Int
  args : List Sym
  completed : Bool
  prev : Val
deriving DecidableEq

/-- A semantic action `(args, completed, prev_retval) -> value`. -/
abbrev Action := List Sym → Bool → Val → Val

/-- `self.semantics`: either Python `None` or a dict from rule id to action. -/
abbrev Semantics := Option (List (Int × Action))

/-- Dict lookup `self.semantics[rule_id]`, `none` when the mapping is
`None` or the key is missing. -/
def lookupSem (sem : Semantics) (r : Int) : Option Action :=
  match sem with
  | none => none
  | some l => (l.find? (fun p => p.1 == r)).map (·.2)

/-- Dict lookup `self.active_rules[rule_id]` as an `Option`. -/
def arLookup (m : ARMap) (r : Int) : Option (List ActiveRule) :=
  (m.find? (fun p => p.1 == r)).map (·.2)

/-- Dict assignment `self.active_rules[rule_id] = st`: replace in place or
append a new key at the end (Python insertion order). -/
def arSet : ARMap → Int → List ActiveRule → ARMap
  | [], r, st => [(r, st)]
  | p :: rest, r, st => if p.1 == r then (r, st) :: rest else p :: arSet rest r st

/-!  Table accessors (`tables.py`).  An index table is a list of
`[id, index, name]` entries; lookups scan for the first match and an
exhausted scan models the raised `IndexError` as `none`. -/

/-- `get_table_index(idx_tab, id)` from `tables.py`. -/
def getTableIndex {α : Type} [DecidableEq α] : List (α × Int × String) → α → Option Int
  | [], _ => none
  | e :: es, i => if e.1 = i then some e.2.1 else getTableIndex es i

/-- `get_table_id(idx_tab, idx)` from `tables.py`. -/
def getTableId {α : Type} [DecidableEq α] : List (α × Int × String) → Int → Option α
  | [], _ => none
  | e :: es, j => if e.2.1 = j then some e.1 else getTableId es j

/-!  `Parser.apply_rule` (parser.py lines 89-120) and the `apply_rule`
emitted by the generator (parsergen.py lines 155-178).  Both start by
popping the fully reduced rule from the active-rule stack; that shared
fragment is `popActiveRule`. -/

/-- The pop of the fully reduced rule from the active-rule stack performed
at the start of `apply_rule` (identical in parser.py and in the emitted
code): returns the popped `retval` (`rule_ret`) and the updated map. -/
def popActiveRule (up : Bool) (active : ARMap) (ruleId : Int) : Val × ARMap :=
  if up then
    match arLookup active ruleId with
    | some st =>
      match st.getLast? with
      | some ar => (ar.retval, arSet active ruleId st.dropLast)
      | none => (none, active)
    | none => (none, active)
  else (none, active)

/-- `Parser.apply_rule(rule_id, num_rhs, lhs_id)` of the table-driven core
(parser.py lines 89-120), instrumented with the list of semantic-action
calls it performs.  Returns `(symbols', states', active_rules', calls)`. -/
def applyRule (sem : Semantics) (up : Bool) (symbols : List Sym) (states : List Int)
    (active : ARMap) (ruleId : Int) (numRhs : Int) (lhsId : Int) :
    List Sym × List Int × ARMap × List CallEv :=
  let pr := popActiveRule up active ruleId
  let n : Int := (symbols.length : Int)
  let args := pySlice symbols (n - numRhs) n
  let symbols1 := pySlice symbols 0 (n - numRhs)
  let m : Int := (states.length : Int)
  let states1 := pySlice states 0 (m - numRhs)
  match lookupSem sem ruleId with
  | some act =>
    let ret := act args true pr.1
    (symbols1 ++ [⟨false, lhsId, ret⟩], states1, pr.2,
      [⟨ruleId, args, true, pr.1⟩])
  | none =>
    (symbols1 ++ [⟨false, lhsId, pr.1⟩], states1, pr.2, [])

/-- The `apply_rule(rule_id, num_rhs, lhs_id)` method emitted by
`write_parser_class` (parsergen.py lines 155-178), instrumented the same
way.  It has no state stack; it sets `dist_to_jump = num_rhs` and — unlike
the table-driven core — passes `None` (not `rule_ret`) as `prev_retval`
to the completed semantic-action call.
Returns `(symbols', active_rules', dist_to_jump, calls)`. -/
def applyRuleGen (sem : Semantics) (up : Bool) (symbols : List Sym)
    (active : ARMap) (ruleId : Int) (numRhs : Int) (lhsId : Int) :
    List Sym × ARMap × Int × List CallEv :=
  let pr := popActiveRule up active ruleId
  let distToJump := numRhs
  let n : Int := (symbols.length : Int)
  let args := pySlice symbols (n - numRhs) n
  let symbols1 := pySlice symbols 0 (n - numRhs)
  match lookupSem sem ruleId with
  | some act =>
    let ret := act args true none
    (symbols1 ++ [⟨false, lhsId, ret⟩], pr.2, distToJump,
      [⟨ruleId, args, true, none⟩])
  | none =>
    (symbols1 ++ [⟨false, lhsId, pr.1⟩], pr.2, distToJump, [])

/-!  `Parser.apply_partial_rule` (parser.py lines 126-219).  The method
splits into the active-rule bookkeeping (lines 132-180), which never looks
at `self.semantics`, and the semantic-action invocations (lines 182-219).
`partialBookkeeping` is the first half. -/

/-- Active-rule bookkeeping of `apply_partial_rule` (parser.py lines
132-180), applied to the incremented `rule_len`.  Returns
`(rulestack', active_rules', cur_rule_handle', seen_tokens_old,
already_seen_active_rule)`. -/
def partialBookkeeping (active : ARMap) (curHandle : Int) (ruleId ruleLen : Int)
    (beforeShift : Bool) : List ActiveRule × ARMap × Int × Int × Bool :=
  match arLookup active ruleId with
  | some st =>
    match st.getLast? with
    | some ar =>
      if beforeShift then
        if ar.seen_tokens < ruleLen then
          let st' := setLast st { ar with seen_tokens := ruleLen }
          (st', arSet active ruleId st', curHandle, ar.seen_tokens, false)
        else
          -- the rule is re-entered recursively: insert a new active rule
          let arNew : ActiveRule := ⟨ruleLen, none, curHandle⟩
          let st' := st ++ [arNew]
          (st', arSet active ruleId st', curHandle + 1, -1, false)
      else
        if ar.seen_tokens = ruleLen then
          (st, arSet active ruleId st, curHandle, ar.seen_tokens, true)
        else
          let st' := setLast st { ar with seen_tokens := ruleLen }
          (st', arSet active ruleId st', curHandle, ar.seen_tokens, false)
    | none =>
      let arNew : ActiveRule := ⟨ruleLen, none, curHandle⟩
      ([arNew], arSet active ruleId [arNew], curHandle + 1, -1, false)
  | none =>
    let arNew : ActiveRule := ⟨ruleLen, none, curHandle⟩
    ([arNew], arSet active ruleId [arNew], curHandle + 1, -1, false)

/-- `Parser.apply_partial_rule(rule_id, rule_len, before_shift)` (parser.py
lines 126-219), instrumented with the semantic-action calls.  `la` is
`self.lookahead` (always set when the parser invokes this).  Returns
`(active_rules', cur_rule_handle', calls)`. -/
def applyPartialRule (sem : Semantics) (symbols : List Sym) (la : Sym)
    (active : ARMap) (curHandle : Int) (ruleId ruleLen0 : Int)
    (beforeShift : Bool) : ARMap × Int × List CallEv :=
  let argLen := ruleLen0
  let ruleLen := if beforeShift then ruleLen0 + 1 else ruleLen0
  let bk := partialBookkeeping active curHandle ruleId ruleLen beforeShift
  let st1 := bk.1
  let m1 := bk.2.1
  let h1 := bk.2.2.1
  let seenOld := bk.2.2.2.1
  let alreadySeen := bk.2.2.2.2
  if alreadySeen then (m1, h1, [])
  else
    match lookupSem sem ruleId with
    | none => (m1, h1, [])
    | some act =>
      match st1.getLast? with
      | none => (m1, h1, [])  -- unreachable: the bookkeeping leaves a nonempty stack
      | some ar =>
        let n : Int := (symbols.length : Int)
        let args := pySlice symbols (n - argLen) n
        let p1 : ActiveRule × List CallEv :=
          if beforeShift = false ∨ seenOld < ruleLen - 1 then
            ({ ar with retval := act args false ar.retval },
              [(⟨ruleId, args, false, ar.retval⟩ : CallEv)])
          else (ar, [])
        let p2 : ActiveRule × List CallEv :=
          if beforeShift then
            ({ p1.1 with retval := act (args ++ [la]) false p1.1.retval },
              [(⟨ruleId, args ++ [la], false, p1.1.retval⟩ : CallEv)])
          else (p1.1, [])
        if (p1.2 ++ p2.2).isEmpty then (m1, h1, p1.2 ++ p2.2)
        else (arSet m1 ruleId (setLast st1 p2.1), h1, p1.2 ++ p2.2)

/-!  The table artifact (`Parser.__init__`, parser.py lines 19-49) and the
parse driver (`Parser.parse`, lines 225-287). -/

/-- An index table `[ [id, index, name], … ]` with integer ids. -/
abbrev IdxTab := List (Int × Int × String)

/-- The fields picked out of the JSON table artifact by `Parser.__init__`. -/
structure Tables where
  shift_tab : List (List Int)
  reduce_tab : List (List Int)
  jump_tab : List (List Int)
  termidx_tab : IdxTab
  nontermidx_tab : IdxTab
  semanticidx_tab : IdxTab
  numrhs_tab : List Int
  lhsidx_tab : List Int
  part_term : List (List Int)
  part_nonterm : List (List Int)
  part_term_len : List (List Int)
  part_nonterm_len : List (List Int)
  acc_token : Int
  err_token : Int
  end_token : Int
  start_idx : Int
deriving DecidableEq

/-- An input token record, `[id]` or `[id, lval]`. -/
abbrev Token := Int × Val

/-- Mutable parser state at the top of the driver loop: the state stack,
symbol stack, active-rule map, handle counter, input position, and the
current lookahead with its cached table column. -/
structure PCfg where
  states : List Int
  symbols : List Sym
  active_rules : ARMap
  cur_rule_handle : Int
  input_index : Int
  lookahead : Sym
  lookahead_idx : Int
deriving DecidableEq

/-- The exceptions `parse()` can raise: the two explicit `RuntimeError`s,
an `IndexError` from list indexing (e.g. reading past the token stream or
an empty state stack), and the `IndexError` raised by a failed
`get_table_index`/`get_table_id` scan. -/
inductive Exc
  | NoAction
  | SRConflict
  | IndexErr
  | MissingSymbol
deriving DecidableEq

/-- `Parser.reset` (parser.py lines 55-63).  The lookahead fields hold a
placeholder until `get_next_lookahead` runs (Python sets them to `None`). -/
def resetCfg (t : Tables) : PCfg :=
  { states := [t.start_idx], symbols := [], active_rules := [],
    cur_rule_handle := 0, input_index := -1,
    lookahead := ⟨true, 0, none⟩, lookahead_idx := 0 }

/-- `Parser.get_next_lookahead` (parser.py lines 69-74). -/
def getNextLookahead (t : Tables) (toks : List Token) (cfg : PCfg) :
    Except Exc PCfg :=
  let idx := cfg.input_index + 1
  match pyGet toks idx with
  | none => .error .IndexErr
  | some tok =>
    match getTableIndex t.termidx_tab tok.1 with
    | none => .error .MissingSymbol
    | some laIdx =>
      .ok { cfg with input_index := idx,
                     lookahead := ⟨true, tok.1, tok.2⟩,
                     lookahead_idx := laIdx }

/-- `reset()` followed by the first `get_next_lookahead()` at the top of
`parse()`. -/
def parseInit (t : Tables) (toks : List Token) : Except Exc PCfg :=
  getNextLookahead t toks (resetCfg t)

/-- How one driver-loop iteration (parser.py lines 230-250) classifies the
current state/lookahead pair. -/
inductive StepClass
  | err (e : Exc)
  | accept
  | shift (newState topState : Int)
  | reduce (ruleIdx : Int)
  | stall
deriving DecidableEq

/-- The shift/reduce/accept/error classification at the top of the driver
loop (parser.py lines 230-250): read `shift_tab[top][la]` and
`reduce_tab[top][la]`, raise on no-action or on a runtime shift/reduce
conflict, accept, else shift, else reduce. -/
def classify (t : Tables) (cfg : PCfg) : StepClass :=
  match cfg.states.getLast? with
  | none => .err .IndexErr
  | some topState =>
    match pyGet2 t.shift_tab topState cfg.lookahead_idx with
    | none => .err .IndexErr
    | some newState =>
      match pyGet2 t.reduce_tab topState cfg.lookahead_idx with
      | none => .err .IndexErr
      | some ruleIdx =>
        if newState = t.err_token ∧ ruleIdx = t.err_token then .err .NoAction
        else if newState ≠ t.err_token ∧ ruleIdx ≠ t.err_token then .err .SRConflict
        else if ruleIdx = t.acc_token then .accept
        else if newState ≠ t.err_token then .shift newState topState
        else if ruleIdx ≠ t.err_token then .reduce ruleIdx
        else .stall

/-- The partial-rule block of the shift branch (parser.py lines 255-260). -/
def partialShift (t : Tables) (sem : Semantics) (up : Bool) (cfg : PCfg)
    (topState : Int) : Except Exc (ARMap × Int × List CallEv) :=
  if up then
    match pyGet2 t.part_term topState cfg.lookahead_idx with
    | none => .error .IndexErr
    | some pidx =>
      if pidx ≠ t.err_token then
        match getTableId t.semanticidx_tab pidx with
        | none => .error .MissingSymbol
        | some pid =>
          match pyGet2 t.part_term_len topState cfg.lookahead_idx with
          | none => .error .IndexErr
          | some plen =>
            .ok (applyPartialRule sem cfg.symbols cfg.lookahead
                  cfg.active_rules cfg.cur_rule_handle pid plen true)
      else .ok (cfg.active_rules, cfg.cur_rule_handle, [])
  else .ok (cfg.active_rules, cfg.cur_rule_handle, [])

/-- The partial-rule block of the reduce branch (parser.py lines 276-281),
reached only when `use_partials` holds and the symbol stack is nonempty. -/
def partialJump (t : Tables) (sem : Semantics) (symbols : List Sym) (la : Sym)
    (active : ARMap) (curHandle : Int) (topState lhsIdx : Int) :
    Except Exc (ARMap × Int × List CallEv) :=
  match pyGet2 t.part_nonterm topState lhsIdx with
  | none => .error .IndexErr
  | some pidx =>
    if pidx ≠ t.err_token then
      match getTableId t.semanticidx_tab pidx with
      | none => .error .MissingSymbol
      | some pid =>
        match pyGet2 t.part_nonterm_len topState lhsIdx with
        | none => .error .IndexErr
        | some plen =>
          .ok (applyPartialRule sem symbols la active curHandle pid plen false)
    else .ok (active, curHandle, [])

/-- Result of one driver-loop iteration: accept (returning the top symbol
or Python `None`), continue with a new configuration (carrying the
semantic calls made), or raise. -/
inductive StepRes
  | acc (v : Option Sym)
  | cont (cfg : PCfg) (tr : List CallEv)
  | exc (e : Exc)
deriving DecidableEq

/-- The shift branch (parser.py lines 253-263): partial rule, push the new
state, push the lookahead, fetch the next lookahead. -/
def stepShift (t : Tables) (sem : Semantics) (up : Bool) (toks : List Token)
    (cfg : PCfg) (newState topState : Int) : StepRes :=
  match partialShift t sem up cfg topState with
  | .error e => .exc e
  | .ok pr =>
    match pyGet toks (cfg.input_index + 1) with
    | none => .exc .IndexErr
    | some tok =>
      match getTableIndex t.termidx_tab tok.1 with
      | none => .exc .MissingSymbol
      | some laIdx =>
        .cont { states := cfg.states ++ [newState],
                symbols := cfg.symbols ++ [cfg.lookahead],
                active_rules := pr.1, cur_rule_handle := pr.2.1,
                input_index := cfg.input_index + 1,
                lookahead := ⟨true, tok.1, tok.2⟩,
                lookahead_idx := laIdx } pr.2.2

/-- The reduce branch (parser.py lines 266-283): resolve the rule, call
`apply_rule`, re-read the top state, run the partial-rule block, and push
`jump_tab[top_state][lhs_idx]` onto the state stack (unconditionally). -/
def stepReduce (t : Tables) (sem : Semantics) (up : Bool) (cfg : PCfg)
    (ruleIdx : Int) : StepRes :=
  match getTableId t.semanticidx_tab ruleIdx with
  | none => .exc .MissingSymbol
  | some ruleId =>
    match pyGet t.numrhs_tab ruleIdx with
    | none => .exc .IndexErr
    | some numRhs =>
      match pyGet t.lhsidx_tab ruleIdx with
      | none => .exc .IndexErr
      | some lhsIdx =>
        match getTableId t.nontermidx_tab lhsIdx with
        | none => .exc .MissingSymbol
        | some lhsId =>
          let ar4 :=
            applyRule sem up cfg.symbols cfg.states cfg.active_rules
              ruleId numRhs lhsId
          let symbols1 := ar4.1
          let states1 := ar4.2.1
          let active1 := ar4.2.2.1
          let tr1 := ar4.2.2.2
          match states1.getLast? with
          | none => .exc .IndexErr
          | some topState' =>
            let pj : Except Exc (ARMap × Int × List CallEv) :=
              if up ∧ 0 < symbols1.length then
                partialJump t sem symbols1 cfg.lookahead active1
                  cfg.cur_rule_handle topState' lhsIdx
              else .ok (active1, cfg.cur_rule_handle, [])
            match pj with
            | .error e => .exc e
            | .ok pr2 =>
              match pyGet2 t.jump_tab topState' lhsIdx with
              | none => .exc .IndexErr
              | some j =>
                .cont { states := states1 ++ [j], symbols := symbols1,
                        active_rules := pr2.1, cur_rule_handle := pr2.2.1,
                        input_index := cfg.input_index,
                        lookahead := cfg.lookahead,
                        lookahead_idx := cfg.lookahead_idx } (tr1 ++ pr2.2.2)

/-- One iteration of the driver loop of `parse()` (parser.py lines
229-283). -/
def step (t : Tables) (sem : Semantics) (up : Bool) (toks : List Token)
    (cfg : PCfg) : StepRes :=
  match classify t cfg with
  | .err e => .exc e
  | .accept => .acc cfg.symbols.getLast?
  | .shift newState topState => stepShift t sem up toks cfg newState topState
  | .reduce ruleIdx => stepReduce t sem up cfg ruleIdx
  | .stall => .cont cfg []

/-- Observable result of `parse()`: the returned top symbol (or Python
`None`), a raised exception, or exhausted fuel (the loop is still
running). -/
inductive Outcome
  | accepted (v : Option Sym)
  | raised (e : Exc)
  | fuelOut
deriving DecidableEq

/-- Run the driver loop for at most `fuel` iterations, collecting each
intermediate configuration. -/
def parseLoop (t : Tables) (sem : Semantics) (up : Bool) (toks : List Token) :
    Nat → PCfg → List PCfg × Outcome
  | 0, _ => ([], .fuelOut)
  | n + 1, cfg =>
    match step t sem up toks cfg with
    | .acc v => ([], .accepted v)
    | .exc e => ([], .raised e)
    | .cont cfg' _ =>
      let rest := parseLoop t sem up toks n cfg'
      (cfg' :: rest.1, rest.2)

/-- `Parser.parse()` (parser.py lines 225-287) with step fuel: reset,
first lookahead, then the driver loop.  The first component lists every
configuration observed at the top of the loop. -/
def parseRun (t : Tables) (sem : Semantics) (up : Bool) (toks : List Token)
    (fuel : Nat) : List PCfg × Outcome :=
  match parseInit t toks with
  | .error e => ([], .raised e)
  | .ok c0 =>
    let rest := parseLoop t sem up toks fuel c0
    (c0 :: rest.1, rest.2)

/-!  Helper lemmas about the embedded Python primitives. -/

theorem arLookup_arSet_self (m : ARMap) (r : Int) (st : List ActiveRule) :
    arLookup (arSet m r st) r = some st := by
  induction m with
  | nil => simp [arLookup, arSet]
  | cons p rest ih =>
    by_cases h : p.1 = r
    · simp [arLookup, arSet, h]
    · simp only [arSet, beq_iff_eq, h, if_false]
      have hstep : arLookup (p :: arSet rest r st) r = arLookup (arSet rest r st) r := by
        simp [arLookup, List.find?_cons_of_neg, h]
      rw [hstep]; exact ih

theorem getLast?_setLast {α : Type} (xs : List α) (a : α) :
    (setLast xs a).getLast? = some a := by
  simp [setLast]

theorem dropLast_append_getLast? {α : Type} {xs : List α} {a : α}
    (h : xs.getLast? = some a) : xs.dropLast ++ [a] = xs := by
  induction xs with
  | nil => simp at h
  | cons x xs ih =>
    cases xs with
    | nil => simp_all [List.getLast?]
    | cons y ys =>
      rw [List.getLast?_cons_cons] at h
      simpa using ih h

theorem get?_last_of_getLast? {α : Type} {xs : List α} {a : α}
    (h : xs.getLast? = some a) : xs.get? (xs.length - 1) = some a := by
  induction xs with
  | nil => simp at h
  | cons x xs ih =>
    cases xs with
    | nil => simp_all [List.getLast?]
    | cons y ys =>
      rw [List.getLast?_cons_cons] at h
      simpa using ih h

theorem get?_setLast_last {α : Type} (xs : List α) (a : α) (h : xs ≠ []) :
    (setLast xs a).get? (xs.length - 1) = some a := by
  have hlen : xs.dropLast.length = xs.length - 1 := List.length_dropLast xs
  rw [setLast, List.get?_append_right (by omega)]
  simp [hlen]

theorem get?_append_last {α : Type} (xs ys : List α) (h : xs ≠ []) :
    (xs ++ ys).get? (xs.length - 1) = xs.get? (xs.length - 1) := by
  have : 0 < xs.length := List.length_pos.mpr h
  exact List.get?_append (by omega)

theorem pySlice_zero_length {α : Type} (xs : List α) (e : Int)
    (h0 : 0 ≤ e) (hle : e ≤ (xs.length : Int)) :
    ((pySlice xs 0 e).length : Int) = e := by
  simp only [pySlice]
  rw [if_neg (by omega), if_neg (by omega)]
  have h1 : min (0 : Int) (xs.length : Int) = 0 := by omega
  have h2 : min e (xs.length : Int) = e := by omega
  rw [h1, h2]
  simp only [Int.sub_zero, Int.toNat_zero, List.drop_zero, List.length_take]
  omega

/-!  Concrete table artifacts and runs used by the refuting and witnessing
theorems below.  All use `acc = -1`, `err = -2`, `end` token id `2`,
terminal `a` with id `1`, nonterminal `S` with id `10`. -/

/-- Token stream `a <end>` with lexical value 7 on the `a`. -/
def toksAB : List Token := [(1, some 7), (2, none)]

/-- Grammar `S -> a` (rule index 0, semantic id 100) with a partial-rule
entry for semantic id 101 both at the shift of `a` (match length 2) and at
the jump over `S` in state 0 (match length 1). -/
def tPart : Tables := {
  shift_tab := [[1,-2],[-2,-2],[-2,-2]],
  reduce_tab := [[-2,-2],[-2,0],[-2,-1]],
  jump_tab := [[2],[-2],[-2]],
  termidx_tab := [(1,0,"a"),(2,1,"end")],
  nontermidx_tab := [(10,0,"S")],
  semanticidx_tab := [(100,0,"r0"),(101,1,"r1")],
  numrhs_tab := [1], lhsidx_tab := [0],
  part_term := [[1,-2],[-2,-2],[-2,-2]],
  part_nonterm := [[1],[-2],[-2]],
  part_term_len := [[2,0],[0,0],[0,0]],
  part_nonterm_len := [[1],[0],[0]],
  acc_token := -1, err_token := -2, end_token := 2, start_idx := 0 }

/-- Grammar `S -> a` without partial entries, with `jump[0][S] = j`. -/
def tJump (j : Int) : Tables := {
  shift_tab := [[1,-2],[-2,-2]],
  reduce_tab := [[-2,-2],[-2,0]],
  jump_tab := [[j],[-2]],
  termidx_tab := [(1,0,"a"),(2,1,"end")],
  nontermidx_tab := [(10,0,"S")],
  semanticidx_tab := [(100,0,"r0")],
  numrhs_tab := [1], lhsidx_tab := [0],
  part_term := [[-2,-2],[-2,-2]],
  part_nonterm := [[-2],[-2]],
  part_term_len := [[0,0],[0,0]],
  part_nonterm_len := [[0],[0]],
  acc_token := -1, err_token := -2, end_token := 2, start_idx := 0 }

/-- One-state artifact with neither a shift nor a reduce action anywhere. -/
def tNoAct : Tables := {
  shift_tab := [[-2]], reduce_tab := [[-2]], jump_tab := [[-2]],
  termidx_tab := [(1,0,"a")],
  nontermidx_tab := [(10,0,"S")],
  semanticidx_tab := [(100,0,"r0")],
  numrhs_tab := [0], lhsidx_tab := [0],
  part_term := [[-2]], part_nonterm := [[-2]],
  part_term_len := [[0]], part_nonterm_len := [[0]],
  acc_token := -1, err_token := -2, end_token := 2, start_idx := 0 }

/-- One-state artifact with both a shift and a reduce action on `a`. -/
def tConflict : Tables :=
  { tNoAct with shift_tab := [[0]], reduce_tab := [[0]] }

/-- The configuration `parse()` reaches on `tJump j` after shifting `a`. -/
def cfgAfterShift : PCfg :=
  { states := [0,1], symbols := [⟨true,1,some 7⟩], active_rules := [],
    cur_rule_handle := 0, input_index := 1,
    lookahead := ⟨true,2,none⟩, lookahead_idx := 1 }

/-- The configuration `parse()` reaches on `tPart` after shifting `a`. -/
def cfgPartShift : PCfg :=
  { states := [0,1], symbols := [⟨true,1,some 7⟩],
    active_rules := [(101, [⟨3, none, 0⟩])],
    cur_rule_handle := 1, input_index := 1,
    lookahead := ⟨true,2,none⟩, lookahead_idx := 1 }

/-- The configuration `parse()` reaches on `tPart` after the reduce. -/
def cfgPartReduce : PCfg :=
  { states := [0,2], symbols := [⟨false,10,none⟩],
    active_rules := [(101, [⟨1, none, 0⟩])],
    cur_rule_handle := 1, input_index := 1,
    lookahead := ⟨true,2,none⟩, lookahead_idx := 1 }

/-- A semantics mapping with one action, for rule id 101, that returns the
`prev_retval` it receives. -/
def semPrev : Semantics := some [(101, fun _ _ p => p)]

/-- An active-rule map in which rule 101 has one active instance whose
partial invocations accumulated `retval = 5`. -/
def activeP : ARMap := [(101, [⟨2, some 5, 0⟩])]

/-- A two-terminal symbol stack. -/
def symsTwo : List Sym := [⟨true, 1, some 7⟩, ⟨true, 1, some 8⟩]

/-!  Claim theorems. -/

/-- C1: the claim demands that for every table artifact and accepted token
sequence the recursive-ascent parser emitted by the generator performs the
same semantic-action calls as the table-driven core — same rule ids, args,
completed flags and the same `prev_retval` passed to each completed call.
The code violates this: on a full reduction the core's `apply_rule`
(parser.py line 117) passes the popped active rule's `retval` as
`prev_retval`, while the emitted `apply_rule` (parsergen.py line 176)
passes `None`, although it too popped `rule_ret` from the active rule.
At an active rule for id 101 holding `retval = 5`, reducing two symbols by
rule 101 makes the core call the action with `prev_retval = 5` and the
generated parser call it with `prev_retval = None`, so the pushed values
differ as well.  This contradicts the repository's own stated equivalence
of the two parsers, so it is a bug in the emitted code. -/
theorem C1_generated_parser_drops_prev_retval :
    (applyRule semPrev true symsTwo [0,1,2] activeP 101 2 10).2.2.2
        = [⟨101, symsTwo, true, some 5⟩]
    ∧ (applyRuleGen semPrev true symsTwo activeP 101 2 10).2.2.2
        = [⟨101, symsTwo, true, none⟩]
    ∧ (applyRule semPrev true symsTwo [0,1,2] activeP 101 2 10).1.getLast?
        = some ⟨false, 10, some 5⟩
    ∧ (applyRuleGen semPrev true symsTwo activeP 101 2 10).1.getLast?
        = some ⟨false, 10, none⟩
    ∧ ((some 5 : Val) ≠ none) := by
  refine ⟨rfl, rfl, rfl, rfl, by decide⟩

/-- C2 counterexample: the claim states that when `jump[s'][lhs_idx]`
equals `ERROR` after a reduce, `parse()` reports an `InvalidGoto` failure
and aborts rather than pushing `ERROR` and continuing.  On the artifact
`tJump (-2)` (whose only jump entry is the error sentinel `-2`) and input
`a <end>`, the reduce step at the second loop iteration returns a
continuing configuration whose state stack is `[0, -2]` — `ERROR` was
pushed as a state — and the parse goes on to a third iteration, where it
dies with the unrelated `NoAction` error (after Python's negative-index
wrap-around reads row 0 for state `-2`); no `InvalidGoto` is ever
reported. -/
theorem C2_counterexample :
    ((parseRun (tJump (-2)) none true toksAB 10).1.get? 2).map PCfg.states
        = some [0, -2]
    ∧ (tJump (-2)).err_token = -2
    ∧ (parseRun (tJump (-2)) none true toksAB 10).1.length = 3
    ∧ (parseRun (tJump (-2)) none true toksAB 10).2 = .raised .NoAction := by
  refine ⟨by decide, rfl, by decide, by decide⟩

/-- C2 amended: during a reduce step, after popping the right-hand side
and pushing the left-hand-side nonterminal, `parse()` pushes the jump-table
entry `jump[s'][lhs_idx]` onto the state stack unconditionally — including
when it equals `ERROR` — and continues the driver loop; no `InvalidGoto`
check exists in the code.  Stated for every possible jump entry `j` at the
configuration the parser reaches after shifting `a` on `tJump j`. -/
theorem C2_jump_entry_pushed_unconditionally :
    ∀ j : Int, step (tJump j) none true toksAB cfgAfterShift =
      .cont { states := [0, j], symbols := [⟨false,10,none⟩],
              active_rules := [], cur_rule_handle := 0, input_index := 1,
              lookahead := ⟨true,2,none⟩, lookahead_idx := 1 } [] := by
  intro j; rfl

/-- C5 counterexample: the claim states that `seen_tokens` of the top
Active Rule for a given rule id never decreases across
`apply_partial_rule` invocations within one parse until that Active Rule
is popped by a full reduction.  On the artifact `tPart` and input
`a <end>`, the shift-site partial invocation for rule 101 (match length 2,
before_shift) sets the top Active Rule's `seen_tokens` to 3, and the
jump-site partial invocation for the same rule (match length 1, before
jump) then overwrites it with 1 — the same instance (handle 0), never
popped (rule 101 is never reduced; the parse still accepts): 3 decreased
to 1. -/
theorem C5_counterexample :
    ((parseRun tPart none true toksAB 10).1.get? 1).map PCfg.active_rules
        = some [(101, [⟨3, none, 0⟩])]
    ∧ ((parseRun tPart none true toksAB 10).1.get? 2).map PCfg.active_rules
        = some [(101, [⟨1, none, 0⟩])]
    ∧ ¬ ((3 : Int) ≤ 1)
    ∧ (parseRun tPart none true toksAB 10).2
        = .accepted (some ⟨false, 10, none⟩) := by
  refine ⟨by decide, by decide, by decide, by decide⟩

/-- C8 counterexample: the claim states that failing inputs (no action, or
a runtime shift/reduce conflict) make `parse()` return null rather than
raise.  In the code both failures raise `RuntimeError` (parser.py lines
240-243), which propagates out of `parse()`; the `return None` after the
loop (line 287) is unreachable.  On `tNoAct` (no action anywhere) the
parse of `a` raises `NoAction`; on `tConflict` (shift and reduce both
defined) it raises `SRConflict`; neither run returns a value. -/
theorem C8_counterexample :
    (parseRun tNoAct none true [(1, none)] 5).2 = .raised .NoAction
    ∧ (parseRun tConflict none true [(1, none)] 5).2 = .raised .SRConflict
    ∧ (Outcome.raised .NoAction ≠ .accepted none)
    ∧ (Outcome.raised .SRConflict ≠ .accepted none) := by
  refine ⟨by decide, by decide, by decide, by decide⟩

/-- C8 amended: `parse()` returns the top symbol record on success; on a
failing input it raises — when neither a shift nor a reduce action is
defined it raises the no-action `RuntimeError`, and when both are defined
it raises the shift/reduce-conflict `RuntimeError` — rather than
returning null. -/
theorem C8_failures_raise (t : Tables) (sem : Semantics) (up : Bool)
    (toks : List Token) (cfg : PCfg) (s a r : Int)
    (hs : cfg.states.getLast? = some s)
    (ha : pyGet2 t.shift_tab s cfg.lookahead_idx = some a)
    (hr : pyGet2 t.reduce_tab s cfg.lookahead_idx = some r) :
    (a = t.err_token → r = t.err_token →
        step t sem up toks cfg = .exc .NoAction)
    ∧ (a ≠ t.err_token → r ≠ t.err_token →
        step t sem up toks cfg = .exc .SRConflict) := by
  constructor
  · intro h1 h2
    simp [step, classify, hs, ha, hr, h1, h2]
  · intro h1 h2
    simp [step, classify, hs, ha, hr, h1, h2]

/-- The initial configuration of the `tNoAct` run. -/
def cfgNoAct : PCfg :=
  { states := [0], symbols := [], active_rules := [],
    cur_rule_handle := 0, input_index := 0,
    lookahead := ⟨true,1,none⟩, lookahead_idx := 0 }

/-- Witness for C8's amended theorem at the initial configuration of the
`tNoAct` run. -/
theorem C8_witness :
    step tNoAct none true [(1, none)] cfgNoAct = .exc .NoAction :=
  (C8_failures_raise tNoAct none true [(1, none)] cfgNoAct 0 (-2) (-2)
    rfl rfl rfl).1 rfl rfl

/-- C7: when the reduce-table entry for the current state and lookahead is
`ACCEPT` and the shift entry is `ERROR`, the driver loop terminates
successfully, returning the last symbol on the symbol stack (the symbol
record carrying the result value), or Python `None` when the symbol stack
is empty. -/
theorem C7_accept_returns_top_symbol (t : Tables) (sem : Semantics)
    (up : Bool) (toks : List Token) (cfg : PCfg) (s a r : Int)
    (hs : cfg.states.getLast? = some s)
    (ha : pyGet2 t.shift_tab s cfg.lookahead_idx = some a)
    (hr : pyGet2 t.reduce_tab s cfg.lookahead_idx = some r)
    (haE : a = t.err_token) (hrA : r = t.acc_token)
    (hne : t.acc_token ≠ t.err_token) :
    step t sem up toks cfg = .acc cfg.symbols.getLast?
    ∧ (∀ fuel, parseLoop t sem up toks (fuel + 1) cfg
        = ([], .accepted cfg.symbols.getLast?))
    ∧ (cfg.symbols = [] → step t sem up toks cfg = .acc none) := by
  subst haE hrA
  have hstep : step t sem up toks cfg = .acc cfg.symbols.getLast? := by
    simp [step, classify, hs, ha, hr, hne, Ne.symm hne]
  refine ⟨hstep, fun fuel => ?_, fun hemp => ?_⟩
  · simp [parseLoop, hstep]
  · rw [hstep, hemp]; rfl

/-- Witness for C7 at the accepting configuration of the `tPart` run. -/
theorem C7_witness :
    step tPart none true toksAB cfgPartReduce
      = .acc (some ⟨false, 10, none⟩) :=
  (C7_accept_returns_top_symbol tPart none true toksAB cfgPartReduce
    2 (-2) (-1) rfl rfl rfl rfl rfl (by decide)).1

/-- C9: for every index table whose entries carry pairwise-distinct ids
and pairwise-distinct indices, `get_table_index` and `get_table_id` are
mutually inverse — for each entry `(id, idx, name)` the id maps to the
index, the index maps back to the id (so the round trip is the identity) —
and each lookup raises (`none` here) when its key occurs in no entry. -/
theorem C9_index_table_inverse {α : Type} [DecidableEq α]
    (tab : List (α × Int × String))
    (hids : tab.Pairwise (fun e f => e.1 ≠ f.1))
    (hidxs : tab.Pairwise (fun e f => e.2.1 ≠ f.2.1)) :
    (∀ e ∈ tab, getTableIndex tab e.1 = some e.2.1
        ∧ getTableId tab e.2.1 = some e.1
        ∧ (getTableIndex tab e.1).bind (fun j => getTableId tab j) = some e.1)
    ∧ (∀ i, (∀ e ∈ tab, e.1 ≠ i) → getTableIndex tab i = none)
    ∧ (∀ j, (∀ e ∈ tab, e.2.1 ≠ j) → getTableId tab j = none) := by
  induction tab with
  | nil =>
    exact ⟨by simp, fun i _ => by simp [getTableIndex],
      fun j _ => by simp [getTableId]⟩
  | cons x xs ih =>
    rw [List.pairwise_cons] at hids hidxs
    obtain ⟨hxid, hids'⟩ := hids
    obtain ⟨hxidx, hidxs'⟩ := hidxs
    obtain ⟨ih1, ih2, ih3⟩ := ih hids' hidxs'
    refine ⟨?_, ?_, ?_⟩
    · intro e he
      rcases List.mem_cons.mp he with rfl | he'
      · have h1 : getTableIndex (e :: xs) e.1 = some e.2.1 := by
          simp [getTableIndex]
        have h2 : getTableId (e :: xs) e.2.1 = some e.1 := by
          simp [getTableId]
        exact ⟨h1, h2, by rw [h1]; simpa using h2⟩
      · have hne1 : x.1 ≠ e.1 := hxid e he'
        have hne2 : x.2.1 ≠ e.2.1 := hxidx e he'
        obtain ⟨g1, g2, _⟩ := ih1 e he'
        have h1 : getTableIndex (x :: xs) e.1 = some e.2.1 := by
          simp only [getTableIndex, if_neg hne1]; exact g1
        have h2 : getTableId (x :: xs) e.2.1 = some e.1 := by
          simp only [getTableId, if_neg hne2]; exact g2
        exact ⟨h1, h2, by rw [h1]; simpa using h2⟩
    · intro i hi
      have hx : x.1 ≠ i := hi x (List.mem_cons_self x xs)
      simp only [getTableIndex, if_neg hx]
      exact ih2 i (fun e he => hi e (List.mem_cons_of_mem x he))
    · intro j hj
      have hx : x.2.1 ≠ j := hj x (List.mem_cons_self x xs)
      simp only [getTableId, if_neg hx]
      exact ih3 j (fun e he => hj e (List.mem_cons_of_mem x he))

/-- A small index table used to witness C9. -/
def tabTwo : IdxTab := [(1, 0, "a"), (2, 1, "b")]

/-- Witness for C9 at the entry `(2, 1, "b")` of `tabTwo`. -/
theorem C9_witness :
    getTableIndex tabTwo 2 = some 1 ∧ getTableId tabTwo 1 = some 2
    ∧ (getTableIndex tabTwo 2).bind (fun j => getTableId tabTwo j) = some 2 :=
  (C9_index_table_inverse tabTwo (by decide) (by decide)).1
    (2, 1, "b") (by decide)

/-- C3: when `apply_rule` reduces by rule `ruleId` with partials enabled:
if the active-rule stack for the rule exists and is nonempty, its top
entry is popped and its `retval` becomes `prev_retval`, otherwise
`prev_retval` is null; if a semantic action is registered it is called
exactly once with `(args, completed = true, prev_retval)` and its return
becomes the value of the pushed nonterminal; if none is registered the
pushed value equals `prev_retval` (null when there was no active rule). -/
theorem C3_apply_rule_reduce_semantics (sem : Semantics) (symbols : List Sym)
    (states : List Int) (active : ARMap) (ruleId numRhs lhsId : Int) :
    (∀ st ar, arLookup active ruleId = some (st ++ [ar]) →
        arLookup (applyRule sem true symbols states active ruleId numRhs lhsId).2.2.1
            ruleId = some st
        ∧ (∀ act, lookupSem sem ruleId = some act →
            (applyRule sem true symbols states active ruleId numRhs lhsId).2.2.2
              = [⟨ruleId,
                  pySlice symbols ((symbols.length : Int) - numRhs) (symbols.length : Int),
                  true, ar.retval⟩]
            ∧ (applyRule sem true symbols states active ruleId numRhs lhsId).1.getLast?
              = some ⟨false, lhsId,
                  act (pySlice symbols ((symbols.length : Int) - numRhs)
                    (symbols.length : Int)) true ar.retval⟩)
        ∧ (lookupSem sem ruleId = none →
            (applyRule sem true symbols states active ruleId numRhs lhsId).2.2.2 = []
            ∧ (applyRule sem true symbols states active ruleId numRhs lhsId).1.getLast?
              = some ⟨false, lhsId, ar.retval⟩))
    ∧ ((arLookup active ruleId = none ∨ arLookup active ruleId = some []) →
        (∀ act, lookupSem sem ruleId = some act →
            (applyRule sem true symbols states active ruleId numRhs lhsId).2.2.2
              = [⟨ruleId,
                  pySlice symbols ((symbols.length : Int) - numRhs) (symbols.length : Int),
                  true, none⟩]
            ∧ (applyRule sem true symbols states active ruleId numRhs lhsId).1.getLast?
              = some ⟨false, lhsId,
                  act (pySlice symbols ((symbols.length : Int) - numRhs)
                    (symbols.length : Int)) true none⟩)
        ∧ (lookupSem sem ruleId = none →
            (applyRule sem true symbols states active ruleId numRhs lhsId).2.2.2 = []
            ∧ (applyRule sem true symbols states active ruleId numRhs lhsId).1.getLast?
              = some ⟨false, lhsId, none⟩)) := by
  constructor
  · intro st ar hst
    have hpop : popActiveRule true active ruleId = (ar.retval, arSet active ruleId st) := by
      simp [popActiveRule, hst]
    refine ⟨?_, fun act hact => ?_, fun hnone => ?_⟩
    · cases hact : lookupSem sem ruleId with
      | some act => simp [applyRule, hpop, hact, arLookup_arSet_self]
      | none => simp [applyRule, hpop, hact, arLookup_arSet_self]
    · simp [applyRule, hpop, hact]
    · simp [applyRule, hpop, hnone]
  · intro hcase
    have hpop : popActiveRule true active ruleId = (none, active) := by
      rcases hcase with h | h <;> simp [popActiveRule, h]
    refine ⟨fun act hact => ?_, fun hnone => ?_⟩
    · simp [applyRule, hpop, hact]
    · simp [applyRule, hpop, hnone]

/-- Witness for C3 at the active-rule map `activeP` (one active rule for
id 101 with `retval = 5`) and the identity-on-`prev_retval` semantics. -/
theorem C3_witness :
    arLookup (applyRule semPrev true symsTwo [0,1,2] activeP 101 2 10).2.2.1 101
      = some [] :=
  ((C3_apply_rule_reduce_semantics semPrev symsTwo [0,1,2] activeP 101 2 10).1
    [] ⟨2, some 5, 0⟩ (by decide)).1

/-!  Structural lemmas about `apply_partial_rule`. -/

/-- The bookkeeping fields of an active rule, with `retval` erased. -/
def eraseAR (ar : ActiveRule) : Int × Int := (ar.seen_tokens, ar.handle)

/-- An active-rule map with all `retval`s erased. -/
def eraseRetvals (m : ARMap) : List (Int × List (Int × Int)) :=
  m.map (fun p => (p.1, p.2.map eraseAR))

theorem getLast?_eq_none_imp {α : Type} {xs : List α}
    (h : xs.getLast? = none) : xs = [] := by
  cases xs with
  | nil => rfl
  | cons x l =>
    exfalso
    rcases List.getLast?_eq_getLast (x :: l) (by simp) with heq
    rw [heq] at h
    exact Option.noConfusion h

theorem map_eraseAR_setLast {st : List ActiveRule} {ar ar2 : ActiveRule}
    (hlast : st.getLast? = some ar)
    (hseen : ar2.seen_tokens = ar.seen_tokens) (hhandle : ar2.handle = ar.handle) :
    (setLast st ar2).map eraseAR = st.map eraseAR := by
  conv_rhs => rw [← dropLast_append_getLast? hlast]
  simp [setLast, eraseAR, hseen, hhandle]

theorem map_retval_setLast {st : List ActiveRule} {ar ar2 : ActiveRule}
    (hlast : st.getLast? = some ar) (hret : ar2.retval = ar.retval) :
    (setLast st ar2).map ActiveRule.retval = st.map ActiveRule.retval := by
  conv_rhs => rw [← dropLast_append_getLast? hlast]
  simp [setLast, hret]

theorem eraseRetvals_arSet {m : ARMap} {r : Int} {st st' : List ActiveRule}
    (hlk : arLookup m r = some st) (hmap : st'.map eraseAR = st.map eraseAR) :
    eraseRetvals (arSet m r st') = eraseRetvals m := by
  induction m with
  | nil => simp [arLookup] at hlk
  | cons p rest ih =>
    by_cases h : p.1 = r
    · have hst : p.2 = st := by
        have := hlk
        simp [arLookup, List.find?_cons_of_pos, h] at this
        exact this
      simp [arSet, h, eraseRetvals, hmap, hst.symm]
    · have hlk' : arLookup rest r = some st := by
        have := hlk
        simpa [arLookup, List.find?_cons_of_neg, h] using this
      simp only [arSet, beq_iff_eq, h, if_false, eraseRetvals, List.map_cons]
      exact congrArg _ (ih hlk')

/-- After the bookkeeping half of `apply_partial_rule`, the active-rule map
binds `ruleId` to the returned rule stack. -/
theorem partialBookkeeping_lookup (active : ARMap) (h ruleId L : Int) (bs : Bool) :
    arLookup (partialBookkeeping active h ruleId L bs).2.1 ruleId
      = some (partialBookkeeping active h ruleId L bs).1 := by
  unfold partialBookkeeping
  cases harL : arLookup active ruleId with
  | none => simp [harL, arLookup_arSet_self]
  | some st =>
    cases hlast : st.getLast? with
    | none => simp [harL, hlast, arLookup_arSet_self]
    | some ar =>
      by_cases hbs : bs
      · by_cases hlt : ar.seen_tokens < L <;>
          simp [harL, hlast, hbs, hlt, arLookup_arSet_self]
      · by_cases heq : ar.seen_tokens = L <;>
          simp [harL, hlast, hbs, heq, arLookup_arSet_self]

/-- Whether the bookkeeping half of `apply_partial_rule` inserts a fresh
active rule (rather than updating or matching the existing top one);
`L` is the already incremented `rule_len`. -/
def insertsNew (active : ARMap) (ruleId L : Int) (bs : Bool) : Bool :=
  match arLookup active ruleId with
  | some st =>
    match st.getLast? with
    | some ar => if bs ∧ ¬ ar.seen_tokens < L then true else false
    | none => true
  | none => true

/-- The bookkeeping half preserves the sequence of stored `retval`s,
appending `none` exactly when it inserts a fresh active rule. -/
theorem partialBookkeeping_retvals (active : ARMap) (h ruleId L : Int) (bs : Bool) :
    (partialBookkeeping active h ruleId L bs).1.map ActiveRule.retval
      = ((arLookup active ruleId).getD []).map ActiveRule.retval
        ++ (if insertsNew active ruleId L bs then [none] else []) := by
  unfold partialBookkeeping insertsNew
  cases harL : arLookup active ruleId with
  | none => simp [harL]
  | some st =>
    cases hlast : st.getLast? with
    | none => simp [harL, hlast, getLast?_eq_none_imp hlast]
    | some ar =>
      by_cases hbs : bs
      · by_cases hlt : ar.seen_tokens < L
        · have := @map_retval_setLast st ar { ar with seen_tokens := L } hlast rfl
          simp [harL, hlast, hbs, hlt, this]
        · simp [harL, hlast, hbs, hlt]
      · by_cases heq : ar.seen_tokens = L
        · simp [harL, hlast, hbs, heq]
        · have := @map_retval_setLast st ar { ar with seen_tokens := L } hlast rfl
          simp [harL, hlast, hbs, heq, this]

theorem map_seen_setLast {st : List ActiveRule} {ar ar2 : ActiveRule}
    (hlast : st.getLast? = some ar) (hseen : ar2.seen_tokens = ar.seen_tokens) :
    (setLast st ar2).map ActiveRule.seen_tokens = st.map ActiveRule.seen_tokens := by
  conv_rhs => rw [← dropLast_append_getLast? hlast]
  simp [setLast, hseen]

/-- When no action is registered for the rule, `apply_partial_rule` is the
bookkeeping alone: no semantic calls, no `retval` change. -/
theorem applyPartialRule_no_action (sem : Semantics) (symbols : List Sym)
    (la : Sym) (active : ARMap) (h ruleId len0 : Int) (bs : Bool)
    (h0 : lookupSem sem ruleId = none) :
    applyPartialRule sem symbols la active h ruleId len0 bs
      = ((partialBookkeeping active h ruleId (if bs then len0 + 1 else len0) bs).2.1,
         (partialBookkeeping active h ruleId (if bs then len0 + 1 else len0) bs).2.2.1,
         []) := by
  cases halr : (partialBookkeeping active h ruleId (if bs then len0 + 1 else len0) bs).2.2.2.2 with
  | true => simp [applyPartialRule, halr]
  | false => simp [applyPartialRule, halr, h0]

/-- The semantic-call half of `apply_partial_rule` changes neither the
bookkeeping fields (`seen_tokens`, `handle`, stack structure) nor the
handle counter: with retvals erased, the resulting map is the bookkept
map, whatever the semantics. -/
theorem applyPartialRule_erase (sem : Semantics) (symbols : List Sym) (la : Sym)
    (active : ARMap) (h ruleId len0 : Int) (bs : Bool) :
    eraseRetvals (applyPartialRule sem symbols la active h ruleId len0 bs).1
      = eraseRetvals (partialBookkeeping active h ruleId
          (if bs then len0 + 1 else len0) bs).2.1
    ∧ (applyPartialRule sem symbols la active h ruleId len0 bs).2.1
      = (partialBookkeeping active h ruleId (if bs then len0 + 1 else len0) bs).2.2.1 := by
  cases bs with
  | false =>
    cases halr : (partialBookkeeping active h ruleId len0 false).2.2.2.2 with
    | true =>
      have he : applyPartialRule sem symbols la active h ruleId len0 false
          = ((partialBookkeeping active h ruleId len0 false).2.1,
             (partialBookkeeping active h ruleId len0 false).2.2.1, []) := by
        simp [applyPartialRule, halr]
      rw [he]; exact ⟨rfl, rfl⟩
    | false =>
      cases hact : lookupSem sem ruleId with
      | none =>
        have he := applyPartialRule_no_action sem symbols la active h ruleId len0 false hact
        rw [he]; exact ⟨rfl, rfl⟩
      | some act =>
        cases har : (partialBookkeeping active h ruleId len0 false).1.getLast? with
        | none =>
          have he : applyPartialRule sem symbols la active h ruleId len0 false
              = ((partialBookkeeping active h ruleId len0 false).2.1,
                 (partialBookkeeping active h ruleId len0 false).2.2.1, []) := by
            simp [applyPartialRule, halr, hact, har]
          rw [he]; exact ⟨rfl, rfl⟩
        | some ar =>
          constructor
          · simp [applyPartialRule, halr, hact, har]
            exact eraseRetvals_arSet
              (partialBookkeeping_lookup active h ruleId len0 false)
              (map_eraseAR_setLast har rfl rfl)
          · simp [applyPartialRule, halr, hact, har]
  | true =>
    cases halr : (partialBookkeeping active h ruleId (len0 + 1) true).2.2.2.2 with
    | true =>
      have he : applyPartialRule sem symbols la active h ruleId len0 true
          = ((partialBookkeeping active h ruleId (len0 + 1) true).2.1,
             (partialBookkeeping active h ruleId (len0 + 1) true).2.2.1, []) := by
        simp [applyPartialRule, halr]
      rw [he]; exact ⟨rfl, rfl⟩
    | false =>
      cases hact : lookupSem sem ruleId with
      | none =>
        have he := applyPartialRule_no_action sem symbols la active h ruleId len0 true hact
        rw [he]; exact ⟨rfl, rfl⟩
      | some act =>
        cases har : (partialBookkeeping active h ruleId (len0 + 1) true).1.getLast? with
        | none =>
          have he : applyPartialRule sem symbols la active h ruleId len0 true
              = ((partialBookkeeping active h ruleId (len0 + 1) true).2.1,
                 (partialBookkeeping active h ruleId (len0 + 1) true).2.2.1, []) := by
            simp [applyPartialRule, halr, hact, har]
          rw [he]; exact ⟨rfl, rfl⟩
        | some ar =>
          by_cases hso : (partialBookkeeping active h ruleId (len0 + 1) true).2.2.2.1
              < len0
          · constructor
            · simp [applyPartialRule, halr, hact, har, hso]
              exact eraseRetvals_arSet
                (partialBookkeeping_lookup active h ruleId (len0 + 1) true)
                (map_eraseAR_setLast har rfl rfl)
            · simp [applyPartialRule, halr, hact, har, hso]
          · constructor
            · simp [applyPartialRule, halr, hact, har, hso]
              exact eraseRetvals_arSet
                (partialBookkeeping_lookup active h ruleId (len0 + 1) true)
                (map_eraseAR_setLast har rfl rfl)
            · simp [applyPartialRule, halr, hact, har, hso]

/-- C10: `apply_partial_rule` performs its active-rule bookkeeping
unconditionally: even when the semantics mapping is null or has no action
for the rule, it creates a new active rule (with the fresh, incremented
handle) or updates the existing top one's `seen_tokens` exactly as it
would with an action present — the maps agree once `retval`s are erased
and the handle counters agree; only the semantic-action invocations (the
call list is empty) and the `retval` update are skipped (the stored
`retval`s are the previous ones, plus `none` for a freshly inserted
rule). -/
theorem C10_bookkeeping_unconditional (sem0 semA : Semantics)
    (symbols : List Sym) (la : Sym) (active : ARMap) (h ruleId len0 : Int)
    (bs : Bool) (h0 : lookupSem sem0 ruleId = none) :
    eraseRetvals (applyPartialRule sem0 symbols la active h ruleId len0 bs).1
      = eraseRetvals (applyPartialRule semA symbols la active h ruleId len0 bs).1
    ∧ (applyPartialRule sem0 symbols la active h ruleId len0 bs).2.1
      = (applyPartialRule semA symbols la active h ruleId len0 bs).2.1
    ∧ (applyPartialRule sem0 symbols la active h ruleId len0 bs).2.2 = []
    ∧ (arLookup (applyPartialRule sem0 symbols la active h ruleId len0 bs).1 ruleId).map
        (List.map ActiveRule.retval)
      = some (((arLookup active ruleId).getD []).map ActiveRule.retval
          ++ (if insertsNew active ruleId (if bs then len0 + 1 else len0) bs
              then [none] else [])) := by
  have h0e := applyPartialRule_no_action sem0 symbols la active h ruleId len0 bs h0
  have hA := applyPartialRule_erase semA symbols la active h ruleId len0 bs
  refine ⟨?_, ?_, ?_, ?_⟩
  · simp only [h0e]; exact hA.1.symm
  · simp only [h0e]; exact hA.2.symm
  · simp only [h0e]
  · simp only [h0e,
      partialBookkeeping_lookup active h ruleId (if bs then len0 + 1 else len0) bs,
      Option.map_some']
    rw [partialBookkeeping_retvals]

/-- Witness for C10 with a null semantics mapping against the nonempty
mapping `semPrev`, on the active-rule map `activeP`. -/
theorem C10_witness :
    (applyPartialRule none symsTwo ⟨true,1,none⟩ activeP 3 101 1 true).2.2 = [] :=
  (C10_bookkeeping_unconditional none semPrev symsTwo ⟨true,1,none⟩ activeP
    3 101 1 true rfl).2.2.1

/-- The value `seen_tokens_old` holds when the invocation half of
`apply_partial_rule` runs: `-1` when a fresh active rule was inserted (or
none existed), else the top rule's previous `seen_tokens`. -/
def seenOldOf (active : ARMap) (ruleId len0 : Int) (bs : Bool) : Int :=
  let L := if bs then len0 + 1 else len0
  match arLookup active ruleId with
  | some st =>
    match st.getLast? with
    | some ar =>
      if bs then (if ar.seen_tokens < L then ar.seen_tokens else -1)
      else ar.seen_tokens
    | none => -1
  | none => -1

/-- The `retval` of the active rule the invocation half of
`apply_partial_rule` starts from: `none` for a freshly inserted rule, else
the top rule's stored `retval`. -/
def retBeforeOf (active : ARMap) (ruleId len0 : Int) (bs : Bool) : Val :=
  let L := if bs then len0 + 1 else len0
  match arLookup active ruleId with
  | some st =>
    match st.getLast? with
    | some ar => if bs ∧ ¬ ar.seen_tokens < L then none else ar.retval
    | none => none
  | none => none

/-- In a before-shift invocation the bookkeeping never reports
already-seen, its `seen_tokens_old` is `seenOldOf`, and the top of the
bookkept stack stores `retBeforeOf`. -/
theorem partialBookkeeping_before_shift (active : ARMap) (h ruleId len0 : Int) :
    (partialBookkeeping active h ruleId (len0 + 1) true).2.2.2.2 = false
    ∧ (partialBookkeeping active h ruleId (len0 + 1) true).2.2.2.1
        = seenOldOf active ruleId len0 true
    ∧ ((partialBookkeeping active h ruleId (len0 + 1) true).1.getLast?).map
        ActiveRule.retval = some (retBeforeOf active ruleId len0 true) := by
  unfold partialBookkeeping seenOldOf retBeforeOf
  cases harL : arLookup active ruleId with
  | none => simp [harL]
  | some st =>
    cases hlast : st.getLast? with
    | none => simp [harL, hlast]
    | some ar =>
      by_cases hlt : ar.seen_tokens < len0 + 1 <;>
        simp [harL, hlast, hlt, getLast?_setLast, setLast]

/-- C4: in `apply_partial_rule` with `before_shift = true` and a
registered action (a before-shift site is never already-seen): the action
is invoked with the top `arg_len` stack symbols (without the lookahead) if
and only if the previously seen token count `seen_tokens_old` is strictly
less than `rule_len - 1` (where `rule_len` is the length after the `+1`
lookahead increment, so the guard is `seen_tokens_old < len0`), and it is
then invoked again — or, when that guard fails, invoked for the only
time — with those symbols plus the lookahead appended, the active rule's
`retval` being updated after each invocation. -/
theorem C4_partial_before_shift_calls (sem : Semantics) (act : Action)
    (symbols : List Sym) (la : Sym) (active : ARMap) (h ruleId len0 : Int)
    (hact : lookupSem sem ruleId = some act) :
    (applyPartialRule sem symbols la active h ruleId len0 true).2.2
      = (if seenOldOf active ruleId len0 true < len0
         then [(⟨ruleId, pySlice symbols ((symbols.length : Int) - len0) (symbols.length : Int),
                 false, retBeforeOf active ruleId len0 true⟩ : CallEv)]
         else [])
        ++ [⟨ruleId,
             pySlice symbols ((symbols.length : Int) - len0) (symbols.length : Int) ++ [la],
             false,
             if seenOldOf active ruleId len0 true < len0
             then act (pySlice symbols ((symbols.length : Int) - len0) (symbols.length : Int))
                    false (retBeforeOf active ruleId len0 true)
             else retBeforeOf active ruleId len0 true⟩]
    ∧ ∃ st', arLookup (applyPartialRule sem symbols la active h ruleId len0 true).1 ruleId
          = some st'
        ∧ st'.getLast?.map ActiveRule.retval
          = some (act
              (pySlice symbols ((symbols.length : Int) - len0) (symbols.length : Int) ++ [la])
              false
              (if seenOldOf active ruleId len0 true < len0
               then act (pySlice symbols ((symbols.length : Int) - len0) (symbols.length : Int))
                      false (retBeforeOf active ruleId len0 true)
               else retBeforeOf active ruleId len0 true)) := by
  obtain ⟨hAlr, hSo, hRet⟩ := partialBookkeeping_before_shift active h ruleId len0
  cases har : (partialBookkeeping active h ruleId (len0 + 1) true).1.getLast? with
  | none => rw [har] at hRet; simp at hRet
  | some arP =>
    rw [har] at hRet
    have hr : arP.retval = retBeforeOf active ruleId len0 true :=
      Option.some.inj hRet
    by_cases hso : seenOldOf active ruleId len0 true < len0
    · have hout : applyPartialRule sem symbols la active h ruleId len0 true
          = (arSet (partialBookkeeping active h ruleId (len0 + 1) true).2.1 ruleId
              (setLast (partialBookkeeping active h ruleId (len0 + 1) true).1
                ⟨arP.seen_tokens,
                 act (pySlice symbols ((symbols.length : Int) - len0)
                       (symbols.length : Int) ++ [la]) false
                   (act (pySlice symbols ((symbols.length : Int) - len0)
                       (symbols.length : Int)) false arP.retval),
                 arP.handle⟩),
             (partialBookkeeping active h ruleId (len0 + 1) true).2.2.1,
             [⟨ruleId, pySlice symbols ((symbols.length : Int) - len0)
                 (symbols.length : Int), false, arP.retval⟩,
              ⟨ruleId, pySlice symbols ((symbols.length : Int) - len0)
                 (symbols.length : Int) ++ [la], false,
               act (pySlice symbols ((symbols.length : Int) - len0)
                 (symbols.length : Int)) false arP.retval⟩]) := by
        simp [applyPartialRule, hAlr, hact, har, hSo, hso]
      constructor
      · rw [hout]; simp [hso, hr]
      · exact ⟨setLast (partialBookkeeping active h ruleId (len0 + 1) true).1
            ⟨arP.seen_tokens,
             act (pySlice symbols ((symbols.length : Int) - len0)
                   (symbols.length : Int) ++ [la]) false
               (act (pySlice symbols ((symbols.length : Int) - len0)
                   (symbols.length : Int)) false arP.retval),
             arP.handle⟩,
          by rw [hout]; exact arLookup_arSet_self _ _ _,
          by simp [getLast?_setLast, hso, hr]⟩
    · have hout : applyPartialRule sem symbols la active h ruleId len0 true
          = (arSet (partialBookkeeping active h ruleId (len0 + 1) true).2.1 ruleId
              (setLast (partialBookkeeping active h ruleId (len0 + 1) true).1
                ⟨arP.seen_tokens,
                 act (pySlice symbols ((symbols.length : Int) - len0)
                       (symbols.length : Int) ++ [la]) false arP.retval,
                 arP.handle⟩),
             (partialBookkeeping active h ruleId (len0 + 1) true).2.2.1,
             [⟨ruleId, pySlice symbols ((symbols.length : Int) - len0)
                 (symbols.length : Int) ++ [la], false, arP.retval⟩]) := by
        simp [applyPartialRule, hAlr, hact, har, hSo, hso]
      constructor
      · rw [hout]; simp [hso, hr]
      · exact ⟨setLast (partialBookkeeping active h ruleId (len0 + 1) true).1
            ⟨arP.seen_tokens,
             act (pySlice symbols ((symbols.length : Int) - len0)
                   (symbols.length : Int) ++ [la]) false arP.retval,
             arP.handle⟩,
          by rw [hout]; exact arLookup_arSet_self _ _ _,
          by simp [getLast?_setLast, hso, hr]⟩

/-- The invocation half of `apply_partial_rule` never changes any
`seen_tokens`: the stack bound to the rule afterwards has the bookkept
`seen_tokens` sequence. -/
theorem applyPartialRule_seens (sem : Semantics) (symbols : List Sym) (la : Sym)
    (active : ARMap) (h ruleId len0 : Int) (bs : Bool) :
    (arLookup (applyPartialRule sem symbols la active h ruleId len0 bs).1 ruleId).map
        (List.map ActiveRule.seen_tokens)
      = some ((partialBookkeeping active h ruleId (if bs then len0 + 1 else len0) bs).1.map
          ActiveRule.seen_tokens) := by
  cases bs with
  | false =>
    cases halr : (partialBookkeeping active h ruleId len0 false).2.2.2.2 with
    | true =>
      have he : applyPartialRule sem symbols la active h ruleId len0 false
          = ((partialBookkeeping active h ruleId len0 false).2.1,
             (partialBookkeeping active h ruleId len0 false).2.2.1, []) := by
        simp [applyPartialRule, halr]
      rw [he]
      simp [partialBookkeeping_lookup active h ruleId len0 false]
    | false =>
      cases hact : lookupSem sem ruleId with
      | none =>
        rw [applyPartialRule_no_action sem symbols la active h ruleId len0 false hact]
        simp [partialBookkeeping_lookup active h ruleId len0 false]
      | some act =>
        cases har : (partialBookkeeping active h ruleId len0 false).1.getLast? with
        | none =>
          have he : applyPartialRule sem symbols la active h ruleId len0 false
              = ((partialBookkeeping active h ruleId len0 false).2.1,
                 (partialBookkeeping active h ruleId len0 false).2.2.1, []) := by
            simp [applyPartialRule, halr, hact, har]
          rw [he]
          simp [partialBookkeeping_lookup active h ruleId len0 false]
        | some ar =>
          simp [applyPartialRule, halr, hact, har]
          simp [arLookup_arSet_self]
          exact map_seen_setLast har rfl
  | true =>
    cases halr : (partialBookkeeping active h ruleId (len0 + 1) true).2.2.2.2 with
    | true =>
      have he : applyPartialRule sem symbols la active h ruleId len0 true
          = ((partialBookkeeping active h ruleId (len0 + 1) true).2.1,
             (partialBookkeeping active h ruleId (len0 + 1) true).2.2.1, []) := by
        simp [applyPartialRule, halr]
      rw [he]
      simp [partialBookkeeping_lookup active h ruleId (len0 + 1) true]
    | false =>
      cases hact : lookupSem sem ruleId with
      | none =>
        rw [applyPartialRule_no_action sem symbols la active h ruleId len0 true hact]
        simp [partialBookkeeping_lookup active h ruleId (len0 + 1) true]
      | some act =>
        cases har : (partialBookkeeping active h ruleId (len0 + 1) true).1.getLast? with
        | none =>
          have he : applyPartialRule sem symbols la active h ruleId len0 true
              = ((partialBookkeeping active h ruleId (len0 + 1) true).2.1,
                 (partialBookkeeping active h ruleId (len0 + 1) true).2.2.1, []) := by
            simp [applyPartialRule, halr, hact, har]
          rw [he]
          simp [partialBookkeeping_lookup active h ruleId (len0 + 1) true]
        | some ar =>
          by_cases hso : (partialBookkeeping active h ruleId (len0 + 1) true).2.2.2.1
              < len0
          · simp [applyPartialRule, halr, hact, har, hso]
            simp [arLookup_arSet_self]
            exact map_seen_setLast har rfl
          · simp [applyPartialRule, halr, hact, har, hso]
            simp [arLookup_arSet_self]
            exact map_seen_setLast har rfl

/-- C5 amended: at each single `apply_partial_rule` invocation, the active
rule that was on top of the rule's stack keeps its position (counted from
the bottom) and its `seen_tokens` does not decrease, provided the
invocation is a before-shift one (`before_shift = true` only raises it or
starts a fresh instance above it) or the site's match length is at least
the current `seen_tokens` (a before-jump invocation overwrites
`seen_tokens` with its `rule_len`, which the counterexample shows may be
smaller). -/
theorem C5_seen_tokens_monotone_cases (sem : Semantics) (symbols : List Sym)
    (la : Sym) (active : ARMap) (h ruleId len0 : Int) (bs : Bool)
    (st : List ActiveRule) (ar : ActiveRule)
    (hst : arLookup active ruleId = some st) (htop : st.getLast? = some ar)
    (hmono : bs = true ∨ ar.seen_tokens ≤ len0) :
    ∃ seens,
      (arLookup (applyPartialRule sem symbols la active h ruleId len0 bs).1 ruleId).map
          (List.map ActiveRule.seen_tokens) = some seens
      ∧ ∃ s', seens.get? (st.length - 1) = some s' ∧ ar.seen_tokens ≤ s' := by
  have hne : st ≠ [] := by
    intro hemp; rw [hemp] at htop; exact Option.noConfusion htop
  refine ⟨(partialBookkeeping active h ruleId (if bs then len0 + 1 else len0) bs).1.map
      ActiveRule.seen_tokens,
    applyPartialRule_seens sem symbols la active h ruleId len0 bs, ?_⟩
  cases bs with
  | true =>
    by_cases hlt : ar.seen_tokens < len0 + 1
    · have hbk1 : (partialBookkeeping active h ruleId (len0 + 1) true).1
          = setLast st { ar with seen_tokens := len0 + 1 } := by
        simp [partialBookkeeping, hst, htop, hlt]
      refine ⟨len0 + 1, ?_, by omega⟩
      rw [if_pos rfl, hbk1, List.get?_map, get?_setLast_last st _ hne]
      rfl
    · have hbk1 : (partialBookkeeping active h ruleId (len0 + 1) true).1
          = st ++ [⟨len0 + 1, none, h⟩] := by
        simp [partialBookkeeping, hst, htop, hlt]
      refine ⟨ar.seen_tokens, ?_, le_refl _⟩
      rw [if_pos rfl, hbk1, List.get?_map, get?_append_last st _ hne,
        get?_last_of_getLast? htop]
      rfl
  | false =>
    have hle : ar.seen_tokens ≤ len0 := by
      rcases hmono with hbs | hle
      · exact absurd hbs (by simp)
      · exact hle
    by_cases heq : ar.seen_tokens = len0
    · have hbk1 : (partialBookkeeping active h ruleId len0 false).1 = st := by
        simp [partialBookkeeping, hst, htop, heq]
      refine ⟨ar.seen_tokens, ?_, le_refl _⟩
      rw [if_neg (by simp), hbk1, List.get?_map, get?_last_of_getLast? htop]
      rfl
    · have hbk1 : (partialBookkeeping active h ruleId len0 false).1
          = setLast st { ar with seen_tokens := len0 } := by
        simp [partialBookkeeping, hst, htop, heq]
      refine ⟨len0, ?_, hle⟩
      rw [if_neg (by simp), hbk1, List.get?_map, get?_setLast_last st _ hne]
      rfl

/-- Witness for C5's amended theorem: a before-shift invocation on an
active rule with `seen_tokens = 1` yields a top `seen_tokens` of at
least 1. -/
theorem C5_witness :
    ∃ seens,
      (arLookup (applyPartialRule none [] ⟨true,0,none⟩ [(7, [⟨1, none, 0⟩])]
          1 7 2 true).1 7).map (List.map ActiveRule.seen_tokens) = some seens
      ∧ ∃ s', seens.get? 0 = some s' ∧ (1 : Int) ≤ s' :=
  C5_seen_tokens_monotone_cases none [] ⟨true,0,none⟩ [(7, [⟨1, none, 0⟩])]
    1 7 2 true [⟨1, none, 0⟩] ⟨1, none, 0⟩ rfl rfl (Or.inl rfl)

/-- Witness for C4 on an empty stack and empty active-rule map: the action
(which echoes `prev_retval`) is called twice, first without and then with
the lookahead. -/
theorem C4_witness :
    (applyPartialRule semPrev [] ⟨true,1,none⟩ [] 0 101 0 true).2.2
      = [⟨101, [], false, none⟩, ⟨101, [⟨true,1,none⟩], false, none⟩] :=
  (C4_partial_before_shift_calls semPrev (fun _ _ p => p) [] ⟨true,1,none⟩
    [] 0 101 0 rfl).1

/-!  The stack-length invariant of the driver loop. -/

/-- `len(state_stack) = len(symbol_stack) + 1`. -/
def stackInv (cfg : PCfg) : Prop :=
  cfg.states.length = cfg.symbols.length + 1

/-- The `num_rhs` the next step will pop, when that step is a reduce. -/
def stepNumRhs (t : Tables) (cfg : PCfg) : Option Int :=
  match classify t cfg with
  | .reduce ruleIdx => pyGet t.numrhs_tab ruleIdx
  | _ => none

/-- `apply_rule` pops `num_rhs` entries (with Python slice semantics) from
both stacks and pushes one nonterminal symbol. -/
theorem applyRule_stacks (sem : Semantics) (up : Bool) (symbols : List Sym)
    (states : List Int) (active : ARMap) (ruleId numRhs lhsId : Int) :
    ∃ v, (applyRule sem up symbols states active ruleId numRhs lhsId).1
        = pySlice symbols 0 ((symbols.length : Int) - numRhs) ++ [⟨false, lhsId, v⟩]
      ∧ (applyRule sem up symbols states active ruleId numRhs lhsId).2.1
        = pySlice states 0 ((states.length : Int) - numRhs) := by
  cases hact : lookupSem sem ruleId with
  | some act =>
    exact ⟨act (pySlice symbols ((symbols.length : Int) - numRhs) (symbols.length : Int))
        true (popActiveRule up active ruleId).1,
      by simp [applyRule, hact], by simp [applyRule, hact]⟩
  | none =>
    exact ⟨(popActiveRule up active ruleId).1,
      by simp [applyRule, hact], by simp [applyRule, hact]⟩

/-- `get_next_lookahead` leaves both stacks unchanged. -/
theorem getNextLookahead_stacks (t : Tables) (toks : List Token)
    (cfg cfg' : PCfg) (h : getNextLookahead t toks cfg = .ok cfg') :
    cfg'.states = cfg.states ∧ cfg'.symbols = cfg.symbols := by
  cases hg : pyGet toks (cfg.input_index + 1) with
  | none => simp [getNextLookahead, hg] at h
  | some tok =>
    simp only [getNextLookahead, hg] at h
    cases hgi : getTableIndex t.termidx_tab tok.1 with
    | none => simp only [hgi] at h; exact Except.noConfusion h
    | some laIdx =>
      simp only [hgi] at h
      cases h
      exact ⟨rfl, rfl⟩

/-- C6: at the top of every iteration of the driver loop — immediately
after `reset` (and after the first lookahead fetch), and after every
continuing step — the state stack is exactly one longer than the symbol
stack.  A reduce step needs the table-given `num_rhs` of the selected rule
to be between 0 and the symbol-stack depth (the spec's own reduce
invariant, which valid LALR(1) tables guarantee); shifts, accepts and the
initial configuration need no side condition. -/
theorem C6_stack_length_invariant :
    (∀ t : Tables, stackInv (resetCfg t))
    ∧ (∀ t toks cfg, parseInit t toks = .ok cfg → stackInv cfg)
    ∧ (∀ t sem up toks cfg cfg' tr,
        stackInv cfg →
        (∀ k, stepNumRhs t cfg = some k → 0 ≤ k ∧ k ≤ (cfg.symbols.length : Int)) →
        step t sem up toks cfg = .cont cfg' tr → stackInv cfg') := by
  refine ⟨fun t => rfl, ?_, ?_⟩
  · intro t toks cfg h
    obtain ⟨hs, hy⟩ := getNextLookahead_stacks t toks (resetCfg t) cfg h
    simp [stackInv, hs, hy, resetCfg]
  · intro t sem up toks cfg cfg' tr hinv hbound hstep
    unfold step at hstep
    cases hcl : classify t cfg with
    | err e => simp only [hcl] at hstep; exact StepRes.noConfusion hstep
    | accept => simp only [hcl] at hstep; exact StepRes.noConfusion hstep
    | stall =>
      simp only [hcl] at hstep
      cases hstep
      exact hinv
    | shift newState topState =>
      simp only [hcl] at hstep
      cases hps : partialShift t sem up cfg topState with
      | error e => simp [stepShift, hps] at hstep
      | ok pr =>
        simp only [stepShift, hps] at hstep
        cases hg : pyGet toks (cfg.input_index + 1) with
        | none => simp only [hg] at hstep; exact StepRes.noConfusion hstep
        | some tok =>
          simp only [hg] at hstep
          cases hgi : getTableIndex t.termidx_tab tok.1 with
          | none => simp only [hgi] at hstep; exact StepRes.noConfusion hstep
          | some laIdx =>
            simp only [hgi] at hstep
            cases hstep
            unfold stackInv at hinv ⊢
            simp only [List.length_append, List.length_cons, List.length_nil]
            omega
    | reduce ruleIdx =>
      simp only [hcl] at hstep
      cases h1 : getTableId t.semanticidx_tab ruleIdx with
      | none => simp [stepReduce, h1] at hstep
      | some ruleId =>
        simp only [stepReduce, h1] at hstep
        cases h2 : pyGet t.numrhs_tab ruleIdx with
        | none => simp only [h2] at hstep; exact StepRes.noConfusion hstep
        | some numRhs =>
          simp only [h2] at hstep
          cases h3 : pyGet t.lhsidx_tab ruleIdx with
          | none => simp only [h3] at hstep; exact StepRes.noConfusion hstep
          | some lhsIdx =>
            simp only [h3] at hstep
            cases h4 : getTableId t.nontermidx_tab lhsIdx with
            | none => simp only [h4] at hstep; exact StepRes.noConfusion hstep
            | some lhsId =>
              simp only [h4] at hstep
              have hk : 0 ≤ numRhs ∧ numRhs ≤ (cfg.symbols.length : Int) := by
                apply hbound
                simp only [stepNumRhs, hcl]
                exact h2
              obtain ⟨v, hsy, hstt⟩ := applyRule_stacks sem up cfg.symbols
                cfg.states cfg.active_rules ruleId numRhs lhsId
              rw [hsy, hstt] at hstep
              cases h5 : (pySlice cfg.states 0
                  ((cfg.states.length : Int) - numRhs)).getLast? with
              | none => simp only [h5] at hstep; exact StepRes.noConfusion hstep
              | some topState' =>
                simp only [h5] at hstep
                split at hstep
                · exact absurd hstep (by simp)
                · split at hstep
                  · exact absurd hstep (by simp)
                  · cases hstep
                    have hls : ((pySlice cfg.states 0
                        ((cfg.states.length : Int) - numRhs)).length : Int)
                        = (cfg.states.length : Int) - numRhs := by
                      apply pySlice_zero_length
                      · have := hinv
                        unfold stackInv at this
                        omega
                      · omega
                    have hly : ((pySlice cfg.symbols 0
                        ((cfg.symbols.length : Int) - numRhs)).length : Int)
                        = (cfg.symbols.length : Int) - numRhs := by
                      apply pySlice_zero_length
                      · omega
                      · omega
                    have := hinv
                    unfold stackInv at this ⊢
                    simp only [List.length_append, List.length_cons,
                      List.length_nil]
                    omega

/-- Witness for C6's step-preservation part at the reduce step of the
`tPart` run. -/
theorem C6_witness : stackInv cfgPartReduce :=
  C6_stack_length_invariant.2.2 tPart none true toksAB cfgPartShift
    cfgPartReduce [] rfl
    (fun k hk => by
      rw [show stepNumRhs tPart cfgPartShift = some 1 from rfl] at hk
      injection hk with h
      subst h
      exact ⟨by decide, by decide⟩)
    (by decide)

end Lalr1
